import Mathlib

/-!
Shallow embedding of the vscode-eslint language server
(`src/eslint-server/src/server.ts`) and proofs about it.

Conventions of the embedding:
* TypeScript `number` values are modelled as `Int` (all values the program
  manipulates are integers), machine strings as `String`.
* A TypeScript value that may be `null`/`undefined` is modelled as `Option`.
* A plain JavaScript object used as a string-keyed map (`interface Map<V>`,
  `Object.create(null)`) is modelled as an association list in key insertion
  order, which is the enumeration order of `Object.keys` for such keys.
* Side effects on the connection (notifications, requests, diagnostics) are
  modelled as an explicit `Effect` list; process-wide mutable maps are fields
  of an explicit `ServerState` threaded through the functions.
* External collaborators (`Files.uriToFilePath`, `Uri.file(..).toString()`,
  the documents store) are parameters collected in `Externals`.
-/

/-- A JavaScript object used as a string-keyed map, in key insertion order. -/
abbrev JsMap (V : Type) := List (String × V)

/-- Reading `m[k]`: the first (unique) binding for `k`, if any. -/
def mapGet {V : Type} (m : JsMap V) (k : String) : Option V :=
  (m.find? (fun kv => kv.1 == k)).map (fun kv => kv.2)

/-- Writing `m[k] = v`: overwrites in place (JS objects keep the original
insertion position of an overwritten key), appends a fresh key at the end. -/
def mapSet {V : Type} (m : JsMap V) (k : String) (v : V) : JsMap V :=
  match m with
  | [] => [(k, v)]
  | (k1, v1) :: rest => if k1 == k then (k, v) :: rest else (k1, v1) :: mapSet rest k v

/-- The `delete m[k]` operation. -/
def mapDelete {V : Type} (m : JsMap V) (k : String) : JsMap V :=
  m.filter (fun kv => ¬ (kv.1 == k))

/-- `Object.keys(m)` in insertion order. -/
def mapKeys {V : Type} (m : JsMap V) : List String :=
  m.map (fun kv => kv.1)

/-- JavaScript truthiness of a possibly-missing string (`undefined`, `null`
and the empty string are falsy). -/
def strTruthy (s : Option String) : Bool :=
  match s with
  | none => false
  | some t => ¬ (t == "")

/-- Position in a text document (0-based line/character), from the protocol. -/
structure Position where
  line : Int
  character : Int
deriving DecidableEq

/-- A range; the source field `end` is a Lean keyword, rendered `endPos`. -/
structure Range where
  start : Position
  endPos : Position
deriving DecidableEq

/-- Protocol diagnostic as produced by `makeDiagnostic`. -/
structure Diagnostic where
  message : String
  severity : Nat
  source : String
  range : Range
  code : Option String
deriving DecidableEq

/-- `ESLintAutoFixEdit`: `range: [number, number]` plus replacement text. -/
structure ESLintAutoFixEdit where
  range : Int × Int
  text : String
deriving DecidableEq

/-- `ESLintProblem` (server.ts lines 92-101). `ruleId` is typed `string` in
the source but compared against `null`, so it is modelled as optional. -/
structure ESLintProblem where
  line : Int
  column : Int
  endLine : Option Int
  endColumn : Option Int
  severity : Int
  ruleId : Option String
  message : String
  fix : Option ESLintAutoFixEdit
deriving DecidableEq

/-- `ESLintDocumentReport` restricted to the field the server reads. -/
structure ESLintDocumentReport where
  messages : List ESLintProblem
deriving DecidableEq

/-- `ESLintReport` restricted to the field the server reads. -/
structure ESLintReport where
  results : List ESLintDocumentReport
deriving DecidableEq

/-- `AutoFix` (server.ts lines 150-155). -/
structure AutoFix where
  label : String
  documentVersion : Int
  ruleId : String
  edit : ESLintAutoFixEdit
deriving DecidableEq

/-- `Status` (server.ts lines 30-34). -/
inductive Status where
  | ok
  | warn
  | error
deriving DecidableEq

/-- The wire encoding of `Status` (ok = 1, warn = 2, error = 3). -/
def Status.toNumber : Status → Nat
  | .ok => 1
  | .warn => 2
  | .error => 3

/-- The part of a `TextDocument` the modelled code reads. -/
structure TextDocument where
  uri : String
  version : Int
  languageId : String
deriving DecidableEq

/-- An `ESLintError` thrown by the engine: `message` is `some` exactly when
`typeof err.message === "string"`, `messageTemplate` is the optional
structured tag. -/
structure ESLintError where
  message : Option String
  messageTemplate : Option String
deriving DecidableEq

/-- `DiagnosticSeverity.Error` of the protocol. -/
def DiagnosticSeverity.Error : Nat := 1

/-- `DiagnosticSeverity.Warning` of the protocol. -/
def DiagnosticSeverity.Warning : Nat := 2

/-- `convertSeverity` (server.ts lines 176-186). -/
def convertSeverity (severity : Int) : Nat :=
  if severity = 1 then DiagnosticSeverity.Warning
  else if severity = 2 then DiagnosticSeverity.Error
  else DiagnosticSeverity.Error

/-- `makeDiagnostic` (server.ts lines 130-148). -/
def makeDiagnostic (problem : ESLintProblem) : Diagnostic :=
  let message := match problem.ruleId with
    | some rid => problem.message ++ " (" ++ rid ++ ")"
    | none => problem.message
  let startLine := max 0 (problem.line - 1)
  let startChar := max 0 (problem.column - 1)
  let endLine := match problem.endLine with
    | some el => max 0 (el - 1)
    | none => startLine
  let endChar := match problem.endColumn with
    | some ec => max 0 (ec - 1)
    | none => startChar
  { message := message
    severity := convertSeverity problem.severity
    source := "eslint"
    range := { start := { line := startLine, character := startChar }
               endPos := { line := endLine, character := endChar } }
    code := problem.ruleId }

/-- Rendering of a diagnostic `code` inside a template literal: the absent
code is the `null` rule id, which JavaScript renders as the string "null". -/
def codeToString (code : Option String) : String :=
  match code with
  | some c => c
  | none => "null"

/-- `computeKey` (server.ts lines 157-160). -/
def computeKey (diagnostic : Diagnostic) : String :=
  "[" ++ toString diagnostic.range.start.line ++ "," ++
  toString diagnostic.range.start.character ++ "," ++
  toString diagnostic.range.endPos.line ++ "," ++
  toString diagnostic.range.endPos.character ++ "]-" ++
  codeToString diagnostic.code

/-- `recordCodeAction` (server.ts lines 163-174), acting on the `codeActions`
map. The guard `!problem.fix || !problem.ruleId` makes it a no-op when the
problem has no fix, a `null` rule id, or an empty-string rule id. -/
def recordCodeAction (document : TextDocument) (diagnostic : Diagnostic)
    (problem : ESLintProblem) (codeActions : JsMap (JsMap AutoFix)) :
    JsMap (JsMap AutoFix) :=
  match problem.fix, problem.ruleId with
  | some fixEdit, some rid =>
    if rid == "" then codeActions
    else
      let edits := (mapGet codeActions document.uri).getD []
      mapSet codeActions document.uri
        (mapSet edits (computeKey diagnostic)
          { label := "Fix this " ++ rid ++ " problem"
            documentVersion := document.version
            ruleId := rid
            edit := fixEdit })
  | _, _ => codeActions

/-- External collaborators of the modelled code, supplied as parameters:
`Files.uriToFilePath`, `Uri.file(..).toString()`, and the URIs of the
documents currently open in the documents store. -/
structure Externals where
  uriToFilePath : String → String
  fileToUri : String → String
  openDocs : List String

/-- Observable side effects on the connection, in emission order. -/
inductive Effect where
  | sendDiagnostics (uri : String) (diagnostics : List Diagnostic)
  | statusNote (state : Status)
  | noConfigRequest (message : String) (uri : String)
  | showErrorMessage (message : String)
  | consoleWarn (message : String)
  | showInformationMessage (message : String)
deriving DecidableEq

/-- The process-wide mutable maps of the server that the modelled code touches.
`document2Library` and `noConfigReported` and `configErrorReported` only ever
hold truthy values, so only key presence is modelled. -/
structure ServerState where
  codeActions : JsMap (JsMap AutoFix)
  noConfigReported : List String
  configErrorReported : List String
  document2Library : List String
deriving DecidableEq

/-- One step of `result.replace(/\r?\n/g, " ")`: every `\n`, optionally
preceded by `\r`, becomes a single space; a lone `\r` is untouched. -/
def replaceNewlines : List Char → List Char
  | [] => []
  | '\r' :: '\n' :: rest => ' ' :: replaceNewlines rest
  | '\n' :: rest => ' ' :: replaceNewlines rest
  | c :: rest => c :: replaceNewlines rest

/-- `getMessage` (server.ts lines 301-313): sanitize the error message, or
fall back to a generated message naming the file. -/
def getMessage (ext : Externals) (err : ESLintError) (document : TextDocument) : String :=
  match err.message with
  | some msg =>
    let r := String.mk (replaceNewlines msg.toList)
    if r.startsWith "CLI: " then r.drop 5 else r
  | none => "An unknown error occured while validating file: " ++ ext.uriToFilePath document.uri

/-- Character classes appearing in the three config-error regexes:
`\s` (whitespace), `.` (anything except line terminators), `[^\x27]`
(anything except a single quote). -/
inductive CharCls where
  | space
  | nonNewline
  | notQuote

/-- Membership in a character class, per the JavaScript regex semantics
(ASCII approximation of `\s`). -/
def CharCls.mem : CharCls → Char → Bool
  | .space, c => c == ' ' || c == '\t' || c == '\n' || c == '\r' || c == '\x0b' || c == '\x0c'
  | .nonNewline, c => ¬ (c == '\n' || c == '\r' || c == '\u2028' || c == '\u2029')
  | .notQuote, c => ¬ (c == '\x27')

/-- The fragment of JavaScript regexes used by `tryHandleConfigError`:
literals, single-class atoms, concatenation, greedy star/plus over a class,
and numbered capture groups. -/
inductive RE where
  | str (lit : List Char)
  | cls (c : CharCls)
  | cat (a b : RE)
  | star (c : CharCls)
  | plus (c : CharCls)
  | group (i : Nat) (r : RE)

/-- Try continuation `f` at counts `n, n-1, ..., 1` (greedy backtracking). -/
def tryCountsFrom {β : Type} : Nat → (Nat → Option β) → Option β
  | 0, _ => none
  | n + 1, f => (f (n + 1)).orElse (fun _ => tryCountsFrom n f)

/-- Backtracking matcher: match `r` against a prefix of `s` and pass the
remainder to the continuation `k`; captures of enclosing groups are prepended
to the result of `k`. Greedy quantifiers try longer consumptions first. -/
def reMatch : RE → List Char → (List Char → Option (List (Nat × String))) →
    Option (List (Nat × String))
  | .str lit, s, k => if lit.isPrefixOf s then k (s.drop lit.length) else none
  | .cls c, s, k =>
    match s with
    | [] => none
    | ch :: rest => if c.mem ch then k rest else none
  | .cat a b, s, k => reMatch a s (fun rest => reMatch b rest k)
  | .star c, s, k =>
    let maxRun := (s.takeWhile c.mem).length
    (tryCountsFrom maxRun (fun n => k (s.drop n))).orElse (fun _ => k s)
  | .plus c, s, k =>
    let maxRun := (s.takeWhile c.mem).length
    tryCountsFrom maxRun (fun n => k (s.drop n))
  | .group i r, s, k =>
    reMatch r s (fun rest =>
      (k rest).map (fun caps => (i, String.mk (s.take (s.length - rest.length))) :: caps))

/-- Unanchored leftmost matching, as `RegExp.prototype.exec`: try the match
at each successive start position. -/
def reExecAux (r : RE) : List Char → Option (List (Nat × String))
  | [] => reMatch r [] (fun _ => some [])
  | c :: rest =>
    (reMatch r (c :: rest) (fun _ => some [])).orElse (fun _ => reExecAux r rest)

/-- `exec` of one of the modelled regexes on a string: `some captures` on a
match (`matches.length === 3` then holds in the source), `none` otherwise. -/
def reExec (r : RE) (s : String) : Option (List (Nat × String)) :=
  reExecAux r s.toList

/-- Read capture group `i` from an `exec` result. -/
def capGet (caps : List (Nat × String)) (i : Nat) : String :=
  ((caps.find? (fun p => p.1 == i)).map (fun p => p.2)).getD ""

/-- The regex `Cannot read config file:\s+(.*)\nError:\s+(.*)` of
server.ts line 388. -/
def configPattern1 : RE :=
  .cat (.str "Cannot read config file:".toList)
    (.cat (.plus .space)
      (.cat (.group 1 (.star .nonNewline))
        (.cat (.str "\nError:".toList)
          (.cat (.plus .space) (.group 2 (.star .nonNewline))))))

/-- The regex `(.*):\n\s*Configuration for rule "(.*)" is ` of
server.ts line 393. -/
def configPattern2 : RE :=
  .cat (.group 1 (.star .nonNewline))
    (.cat (.str ":\n".toList)
      (.cat (.star .space)
        (.cat (.str "Configuration for rule \"".toList)
          (.cat (.group 2 (.star .nonNewline)) (.str "\" is ".toList)))))

/-- The regex `Cannot find module \x27([^\x27]*)\x27\nReferenced from:\s+(.*)`
of server.ts line 398. -/
def configPattern3 : RE :=
  .cat (.str "Cannot find module \x27".toList)
    (.cat (.group 1 (.star .notQuote))
      (.cat (.str "\x27\nReferenced from:".toList)
        (.cat (.plus .space) (.group 2 (.star .nonNewline)))))

/-- `isNoConfigFoundError` (server.ts lines 341-344). -/
def isNoConfigFoundError (error : ESLintError) : Bool :=
  error.messageTemplate == some "no-config-found" ||
  error.message == some "No ESLint configuration found."

/-- The result of one error handler: the returned status (`none` models
`undefined`), the updated server state, and the emitted effects. -/
abbrev HandlerResult := Option Status × ServerState × List Effect

/-- The common shape of the error handlers of `singleErrorHandlers` and
`manyErrorHandlers`. -/
abbrev ErrorHandler :=
  Externals → ESLintError → TextDocument → ServerState → HandlerResult

/-- `tryHandleNoConfig` (server.ts lines 346-363). -/
def tryHandleNoConfig : ErrorHandler := fun ext error document st =>
  if ¬ isNoConfigFoundError error then (none, st, [])
  else if ¬ st.noConfigReported.contains document.uri then
    (some .warn,
     { st with noConfigReported := st.noConfigReported ++ [document.uri] },
     [.noConfigRequest (getMessage ext error document) document.uri])
  else (some .warn, st, [])

/-- The inner `handleFileName` of `tryHandleConfigError` (server.ts
lines 376-385): report an extracted config-file path once, and always
return `warn`. -/
def handleFileName (ext : Externals) (error : ESLintError) (document : TextDocument)
    (st : ServerState) (filename : String) : HandlerResult :=
  if ¬ st.configErrorReported.contains filename then
    (some .warn,
     { st with configErrorReported := st.configErrorReported ++ [filename] },
     [.consoleWarn (getMessage ext error document)] ++
       (if ¬ ext.openDocs.contains (ext.fileToUri filename)
        then [.showInformationMessage (getMessage ext error document)]
        else []))
  else (some .warn, st, [])

/-- `tryHandleConfigError` (server.ts lines 371-404): bail out on a falsy
message, otherwise try the three config-error regexes in order and hand the
extracted path to `handleFileName`. -/
def tryHandleConfigError : ErrorHandler := fun ext error document st =>
  match error.message with
  | none => (none, st, [])
  | some msg =>
    if msg == "" then (none, st, [])
    else
      match reExec configPattern1 msg with
      | some caps => handleFileName ext error document st (capGet caps 1)
      | none =>
        match reExec configPattern2 msg with
        | some caps => handleFileName ext error document st (capGet caps 1)
        | none =>
          match reExec configPattern3 msg with
          | some caps => handleFileName ext error document st (capGet caps 2)
          | none => (none, st, [])

/-- `showErrorMessage` (server.ts lines 406-409): the catch-all classifier. -/
def showErrorMessageHandler : ErrorHandler := fun ext error document st =>
  (some .error, st, [.showErrorMessage (getMessage ext error document)])

/-- `singleErrorHandlers` (server.ts lines 411-415). -/
def singleErrorHandlers : List ErrorHandler :=
  [tryHandleNoConfig, tryHandleConfigError, showErrorMessageHandler]

/-- `manyErrorHandlers` (server.ts lines 439-442). -/
def manyErrorHandlers : List ErrorHandler :=
  [tryHandleNoConfig, tryHandleConfigError]

/-- The handler loop `for (let handler of handlers) { status = handler(..);
if (status) break; }`: run the handlers in order, stopping at the first that
returns a defined status. -/
def runHandlers : List ErrorHandler → Externals → ESLintError → TextDocument →
    ServerState → HandlerResult
  | [], _, _, _, st => (none, st, [])
  | h :: rest, ext, error, document, st =>
    let r := h ext error document st
    if r.1.isSome then r
    else
      let r2 := runHandlers rest ext error document r.2.1
      (r2.1, r2.2.1, r.2.2 ++ r2.2.2)

/-- `validate` (server.ts lines 315-337). The engine invocation
`cli.executeOnText` is external; its outcome is the `run` parameter. The
registry entry for the URI is cleared before the engine runs, so on a thrown
error (returned as the third component) the clearing has still happened. -/
def validate (document : TextDocument) (run : Except ESLintError ESLintReport)
    (st : ServerState) : ServerState × List Effect × Option ESLintError :=
  let st1 := { st with codeActions := mapDelete st.codeActions document.uri }
  match run with
  | .error err => (st1, [], some err)
  | .ok report =>
    let problems := match report.results with
      | [] => []
      | docReport :: _ => docReport.messages
    let folded := problems.foldl
      (fun (acc : List Diagnostic × JsMap (JsMap AutoFix)) problem =>
        let diagnostic := makeDiagnostic problem
        (acc.1 ++ [diagnostic], recordCodeAction document diagnostic problem acc.2))
      ([], st1.codeActions)
    ({ st1 with codeActions := folded.2 },
     [.sendDiagnostics document.uri folded.1], none)

/-- `validateSingle` (server.ts lines 417-437), after the library promise for
the document has settled: `library` is its value (`none` for the null library
of a failed resolution) and `run` the engine outcome. -/
def validateSingle (ext : Externals) (document : TextDocument)
    (library : Option Unit) (run : Except ESLintError ESLintReport)
    (st : ServerState) : ServerState × List Effect :=
  match library with
  | none => (st, [])
  | some _ =>
    let v := validate document run st
    match v.2.2 with
    | none => (v.1, v.2.1 ++ [.statusNote .ok])
    | some err =>
      let r := runHandlers singleErrorHandlers ext err document v.1
      (r.2.1, v.2.1 ++ r.2.2 ++ [.statusNote (r.1.getD .error)])

/-- `supportedLanguages` (server.ts lines 204-207). -/
def supportedLanguages : List String := ["javascript", "javascriptreact"]

/-- `ignoreTextDocument` (server.ts lines 216-218). -/
def ignoreTextDocument (document : TextDocument) (st : ServerState) : Bool :=
  ¬ supportedLanguages.contains document.languageId ||
  ¬ st.document2Library.contains document.uri

/-- Modelled from the spec: the external `ErrorMessageTracker` of the
`vscode-languageserver` library, an "aggregate message tracker (deduplicating
identical messages)"; `add` records a message once, `sendErrors` flushes each
accumulated message as a user-visible error notification. -/
def trackerAdd (tracker : List String) (message : String) : List String :=
  if tracker.contains message then tracker else tracker ++ [message]

/-- Flushing the tracker (`tracker.sendErrors(connection)`). -/
def trackerSendErrors (tracker : List String) : List Effect :=
  tracker.map (fun m => .showErrorMessage m)

/-- One per-document attempt of a batch validation, in settlement order of
its library promise: the resolved library value and the engine outcome. -/
structure ManyAttempt where
  document : TextDocument
  library : Option Unit
  run : Except ESLintError ESLintReport

/-- The accumulator of `validateMany`: the shared `status` variable, the
message tracker, the server state and the effects emitted so far. -/
structure ManyAcc where
  st : ServerState
  status : Option Status
  tracker : List String
  effs : List Effect

/-- One settled per-document attempt of `validateMany` (server.ts
lines 448-473): the body of the `then` continuation, including the
`manyErrorHandlers` loop and the shared `status` overwrite. -/
def validateManyStep (ext : Externals) (st0 : ServerState) (acc : ManyAcc)
    (a : ManyAttempt) : ManyAcc :=
  if ignoreTextDocument a.document st0 then acc
  else
    match a.library with
    | none => acc
    | some _ =>
      let v := validate a.document a.run acc.st
      match v.2.2 with
      | none => { acc with st := v.1, effs := acc.effs ++ v.2.1 }
      | some err =>
        let r := runHandlers manyErrorHandlers ext err a.document v.1
        match r.1 with
        | some s =>
          { acc with
            st := r.2.1,
            status := some s,
            effs := acc.effs ++ v.2.1 ++ r.2.2 }
        | none =>
          { acc with
            st := r.2.1,
            status := some .error,
            tracker := trackerAdd acc.tracker (getMessage ext err a.document),
            effs := acc.effs ++ v.2.1 ++ r.2.2 }

/-- `validateMany` (server.ts lines 444-483): run every attempt in settlement
order, then flush the tracker and publish `status || Status.ok`. -/
def validateMany (ext : Externals) (attempts : List ManyAttempt)
    (st0 : ServerState) : ServerState × List Effect :=
  let acc := attempts.foldl (validateManyStep ext st0)
    { st := st0, status := none, tracker := [], effs := [] }
  (acc.st,
   acc.effs ++ trackerSendErrors acc.tracker ++ [.statusNote (acc.status.getD .ok)])

/-- The `documents.onDidClose` handler (server.ts lines 278-284). -/
def onDidClose (document : TextDocument) (st : ServerState) :
    ServerState × List Effect :=
  if ignoreTextDocument document st then (st, [])
  else
    ({ st with document2Library := st.document2Library.filter (fun u => ¬ (u == document.uri)) },
     [.sendDiagnostics document.uri []])

/-- The `Fixes` class (server.ts lines 516-581) operates on the snapshot
`edits` taken at construction; `this.keys = Object.keys(edits)`. -/
def Fixes.keys (edits : JsMap AutoFix) : List String :=
  mapKeys edits

/-- `Fixes.overlaps` (server.ts lines 523-525): `lastEdit` may be `undefined`
(from `getLastEdit` of an empty array), guarded by `!!lastEdit`. -/
def Fixes.overlaps (lastEdit : Option AutoFix) (newEdit : AutoFix) : Bool :=
  match lastEdit with
  | none => false
  | some l => l.edit.range.2 > newEdit.edit.range.1

/-- `Fixes.isEmpty` (server.ts lines 527-529). -/
def Fixes.isEmpty (edits : JsMap AutoFix) : Bool :=
  (Fixes.keys edits).length == 0

/-- `Fixes.getDocumentVersion` (server.ts lines 531-533):
`this.edits[this.keys[0]].documentVersion`. On an empty snapshot
`this.keys[0]` is `undefined` and the field access throws a `TypeError`;
the thrown error is modelled as the `none` result. -/
def Fixes.getDocumentVersion (edits : JsMap AutoFix) : Option Int :=
  match (Fixes.keys edits).head? with
  | none => none
  | some k => (mapGet edits k).map (fun fix => fix.documentVersion)

/-- `Fixes.getScoped` (server.ts lines 535-545): the fixes whose key matches
a context diagnostic, in the diagnostics' order. -/
def Fixes.getScoped (edits : JsMap AutoFix) (diagnostics : List Diagnostic) :
    List AutoFix :=
  diagnostics.filterMap (fun diagnostic => mapGet edits (computeKey diagnostic))

/-- The comparator of `Fixes.getAllSorted` (server.ts lines 549-561). -/
def fixComparator (a b : AutoFix) : Int :=
  let d := a.edit.range.1 - b.edit.range.1
  if d ≠ 0 then d
  else if a.edit.range.2 = 0 then -1
  else if b.edit.range.2 = 0 then 1
  else a.edit.range.2 - b.edit.range.2

/-- `Fixes.getAllSorted` (server.ts lines 547-562):
`this.keys.map(key => this.edits[key])` enumerates the snapshot's values in
insertion order; `Array.prototype.sort` is modelled as a stable merge sort
driven by the source comparator. -/
def Fixes.getAllSorted (edits : JsMap AutoFix) : List AutoFix :=
  (edits.map (fun kv => kv.2)).mergeSort (fun a b => fixComparator a b ≤ 0)

/-- The loop of `Fixes.getOverlapFree` (server.ts lines 572-578), with `last`
the most recently kept edit. -/
def overlapFreeLoop : AutoFix → List AutoFix → List AutoFix
  | _, [] => []
  | last, current :: rest =>
    if Fixes.overlaps (some last) current then overlapFreeLoop last rest
    else current :: overlapFreeLoop current rest

/-- `Fixes.getOverlapFree` (server.ts lines 564-580). -/
def Fixes.getOverlapFree (edits : JsMap AutoFix) : List AutoFix :=
  let sorted := Fixes.getAllSorted edits
  if sorted.length ≤ 1 then sorted
  else
    match sorted with
    | [] => []
    | first :: rest => first :: overlapFreeLoop first rest

/-- A protocol `TextEdit`; the source field `end` of its range is rendered
through `rangeStart`/`rangeEnd`. -/
structure TextEdit where
  rangeStart : Position
  rangeEnd : Position
  newText : String
deriving DecidableEq

/-- A protocol `Command` as built by the code-action handler: title, command
identifier, and the arguments `uri`, `documentVersion`, list of edits. -/
structure Command where
  title : String
  command : String
  uri : String
  documentVersion : Int
  edits : List TextEdit
deriving DecidableEq

/-- The inner `createTextEdit` of the code-action handler (server.ts
lines 600-602); `textDocument.positionAt` is the external `positionAt`
parameter, and `editInfo.edit.text || ""` is the identity on strings. -/
def createTextEdit (positionAt : Int → Position) (editInfo : AutoFix) : TextEdit :=
  { rangeStart := positionAt editInfo.edit.range.1
    rangeEnd := positionAt editInfo.edit.range.2
    newText := editInfo.edit.text }

/-- `getLastEdit` (server.ts lines 604-610). -/
def getLastEdit (array : List AutoFix) : Option AutoFix :=
  array.getLast?

/-- One iteration of the `fixes.getAllSorted()` loop of the code-action
handler (server.ts lines 625-635), accumulating `(documentVersion, same,
all)`; `ruleId` is the value left by the scoped loop. -/
def codeActionSortedStep (ruleId : Option String) (acc : Int × List AutoFix × List AutoFix)
    (editInfo : AutoFix) : Int × List AutoFix × List AutoFix :=
  let dv := if acc.1 == -1 then editInfo.documentVersion else acc.1
  let same :=
    if (some editInfo.ruleId == ruleId) && ¬ Fixes.overlaps (getLastEdit acc.2.1) editInfo
    then acc.2.1 ++ [editInfo] else acc.2.1
  let allList :=
    if ¬ Fixes.overlaps (getLastEdit acc.2.2) editInfo
    then acc.2.2 ++ [editInfo] else acc.2.2
  (dv, same, allList)

/-- `connection.onCodeAction` (server.ts lines 583-644). After the scoped
loop, `documentVersion` and `ruleId` hold the values assigned by its last
iteration (or `-1` and `undefined` when the loop did not run). -/
def onCodeAction (positionAt : Int → Position) (codeActions : JsMap (JsMap AutoFix))
    (uri : String) (contextDiagnostics : List Diagnostic) : List Command :=
  match mapGet codeActions uri with
  | none => []
  | some edits =>
    if Fixes.isEmpty edits then []
    else
      let scopedFixes := Fixes.getScoped edits contextDiagnostics
      let result := scopedFixes.map (fun editInfo =>
        ({ title := editInfo.label
           command := "eslint.applySingleFix"
           uri := uri
           documentVersion := editInfo.documentVersion
           edits := [createTextEdit positionAt editInfo] } : Command))
      let documentVersion : Int :=
        match scopedFixes.getLast? with
        | some e => e.documentVersion
        | none => -1
      let ruleId : Option String := scopedFixes.getLast?.map (fun e => e.ruleId)
      if result.length > 0 then
        let folded := (Fixes.getAllSorted edits).foldl
          (codeActionSortedStep ruleId) (documentVersion, [], [])
        result ++
        (if folded.2.1.length > 1 then
          [{ title := "Fix all " ++ (ruleId.getD "") ++ " problems"
             command := "eslint.applySameFixes"
             uri := uri
             documentVersion := folded.1
             edits := folded.2.1.map (createTextEdit positionAt) }]
         else []) ++
        (if folded.2.2.length > 1 then
          [{ title := "Fix all auto-fixable problems"
             command := "eslint.applyAllFixes"
             uri := uri
             documentVersion := folded.1
             edits := folded.2.2.map (createTextEdit positionAt) }]
         else [])
      else result

/-- The `AllFixesRequest` handler (server.ts lines 659-678). -/
def onAllFixesRequest (positionAt : Int → Position)
    (codeActions : JsMap (JsMap AutoFix)) (uri : String) :
    Option (Int × List TextEdit) :=
  match mapGet codeActions uri with
  | none => none
  | some edits =>
    if Fixes.isEmpty edits then none
    else
      match Fixes.getDocumentVersion edits with
      | none => none
      | some v => some (v, (Fixes.getOverlapFree edits).map (createTextEdit positionAt))

/-- The Diagnostic Converter as the claim describes it: severity 1 to
Warning and everything else to Error, 1-based coordinates shifted down by
one and floored at 0, missing end coordinates defaulting to the converted
start, rule id appended to the message in parentheses when present. -/
def specDiagnostic (p : ESLintProblem) : Diagnostic :=
  let conv := fun (x : Int) => max 0 (x - 1)
  { message := match p.ruleId with
      | some rid => p.message ++ " (" ++ rid ++ ")"
      | none => p.message
    severity := if p.severity = 1 then DiagnosticSeverity.Warning else DiagnosticSeverity.Error
    source := "eslint"
    range := { start := { line := conv p.line, character := conv p.column }
               endPos := { line := (p.endLine.map conv).getD (conv p.line)
                           character := (p.endColumn.map conv).getD (conv p.column) } }
    code := p.ruleId }

/-- The sort order claimed for `getAllSorted`: ascending start offset; on a
start tie an edit with end offset 0 sorts before one with a nonzero end
offset; otherwise ascending end offset. -/
def SpecFixLe (a b : AutoFix) : Prop :=
  a.edit.range.1 < b.edit.range.1 ∨
  (a.edit.range.1 = b.edit.range.1 ∧
    (a.edit.range.2 = 0 ∨ (b.edit.range.2 ≠ 0 ∧ a.edit.range.2 ≤ b.edit.range.2)))

instance (a b : AutoFix) : Decidable (SpecFixLe a b) := by
  unfold SpecFixLe
  infer_instance

/-- The greedy scan claimed for `getOverlapFree`, inner loop: keep an edit
iff the most recently kept edit's end offset is not strictly greater than
its start offset. -/
def greedyKeepLoop : AutoFix → List AutoFix → List AutoFix
  | _, [] => []
  | lastKept, e :: rest =>
    if lastKept.edit.range.2 ≤ e.edit.range.1 then e :: greedyKeepLoop e rest
    else greedyKeepLoop lastKept rest

/-- The greedy scan claimed for `getOverlapFree`: keep the first edit of the
sorted list, then scan left to right. -/
def greedyKeep : List AutoFix → List AutoFix
  | [] => []
  | first :: rest => first :: greedyKeepLoop first rest

/-- The status each classifier yields on `err`, independent of dedup state:
the no-config classifier. -/
def noConfigStatus (err : ESLintError) : Option Status :=
  if isNoConfigFoundError err then some .warn else none

/-- The status the config-syntax classifier yields on `err`, independent of
dedup state. -/
def configErrorStatus (err : ESLintError) : Option Status :=
  match err.message with
  | none => none
  | some msg =>
    if msg == "" then none
    else if (reExec configPattern1 msg).isSome then some .warn
    else if (reExec configPattern2 msg).isSome then some .warn
    else if (reExec configPattern3 msg).isSome then some .warn
    else none

/-- The ordered classifier chain of single-document validation, as a list of
yielded statuses; the last entry is the generic classifier, which always
yields `error`. -/
def classifierChain (err : ESLintError) : List (Option Status) :=
  [noConfigStatus err, configErrorStatus err, some .error]

/-- The status a failing batch attempt contributes: the first status yielded
by the no-config and config-syntax classifiers, `error` if both pass. -/
def batchFailureStatus (err : ESLintError) : Status :=
  (([noConfigStatus err, configErrorStatus err]).findSome? id).getD .error

/-- The errors of the attempts a batch validation actually processes (not
ignored, library resolved, engine threw), in settlement order. -/
def batchFailures (st0 : ServerState) (attempts : List ManyAttempt) :
    List ESLintError :=
  attempts.filterMap (fun a =>
    if ignoreTextDocument a.document st0 then none
    else
      match a.library with
      | none => none
      | some _ =>
        match a.run with
        | .ok _ => none
        | .error e => some e)

/-- Join of two statuses in the severity order ok < warn < error. -/
def statusMax (a b : Status) : Status :=
  if a.toNumber ≤ b.toNumber then b else a

/-- The worst-outcome aggregation claim C1 describes for a batch. -/
def claimedBatchStatus (st0 : ServerState) (attempts : List ManyAttempt) : Status :=
  ((batchFailures st0 attempts).map batchFailureStatus).foldl statusMax .ok

/-- The rule id of the last fix of the scoped selection (claim C10's
designated target rule; `""` stands in for the unassigned variable when the
selection is empty, in which case no aggregate command exists). -/
def designatedRule (scopedFixes : List AutoFix) : String :=
  (scopedFixes.getLast?.map (fun e => e.ruleId)).getD ""

/-- The greedy same-rule non-overlapping selection over a sorted fix list
(claim C10). -/
def sameRuleSelection (rule : String) (sorted : List AutoFix) : List AutoFix :=
  sorted.foldl (fun acc e =>
    if (e.ruleId == rule) && ¬ Fixes.overlaps acc.getLast? e then acc ++ [e] else acc) []

theorem convertSeverity_eq (s : Int) :
    convertSeverity s =
      if s = 1 then DiagnosticSeverity.Warning else DiagnosticSeverity.Error := by
  unfold convertSeverity
  rcases eq_or_ne s 1 with h | h
  · simp [h]
  · rcases eq_or_ne s 2 with h2 | h2 <;> simp [h, h2]

/-- C8: the Diagnostic Converter is pure and total: severity 1 maps to
Warning and every other severity to Error; every 1-based line/column is
converted by subtracting 1 and flooring at 0; a missing end-line/end-column
defaults to the converted start position; the message has the rule id
appended in parentheses when present; source is "eslint" and code is the
rule id. -/
theorem claim_C8_diagnostic_converter :
    (∀ p : ESLintProblem, makeDiagnostic p = specDiagnostic p) ∧
    (∀ s : Int, convertSeverity s =
      if s = 1 then DiagnosticSeverity.Warning else DiagnosticSeverity.Error) := by
  refine ⟨?_, convertSeverity_eq⟩
  intro p
  unfold makeDiagnostic specDiagnostic
  rcases p with ⟨line, column, endLine, endColumn, severity, ruleId, message, fix⟩
  simp only [convertSeverity_eq]
  rcases ruleId with _ | rid <;> rcases endLine with _ | el <;> rcases endColumn with _ | ec <;> rfl

theorem mapGet_mapSet_self {V : Type} (m : JsMap V) (k : String) (v : V) :
    mapGet (mapSet m k v) k = some v := by
  induction m with
  | nil => simp [mapSet, mapGet]
  | cons kv rest ih =>
    rcases kv with ⟨k1, v1⟩
    by_cases h : k1 == k
    · simp [mapSet, h, mapGet]
    · simp only [mapSet, h, Bool.false_eq_true, if_false]
      simpa [mapGet, List.find?, h] using ih

/-- C9: the Key of a Diagnostic is a function of its four range components
and its code only, so Problems with identical converted positions and rule
id share a Key; recording a second fix under the same Key overwrites the
first for the URI; recording is a no-op when the Problem has no fix or no
rule id. -/
theorem claim_C9_registry_keying :
    (∀ d1 d2 : Diagnostic, d1.range = d2.range → d1.code = d2.code →
      computeKey d1 = computeKey d2) ∧
    (∀ p1 p2 : ESLintProblem,
      (makeDiagnostic p1).range = (makeDiagnostic p2).range → p1.ruleId = p2.ruleId →
      computeKey (makeDiagnostic p1) = computeKey (makeDiagnostic p2)) ∧
    (∀ (document : TextDocument) (m : JsMap (JsMap AutoFix)) (p1 p2 : ESLintProblem)
      (f1 f2 : ESLintAutoFixEdit) (r1 r2 : String),
      p1.fix = some f1 → p2.fix = some f2 →
      p1.ruleId = some r1 → p2.ruleId = some r2 → r1 ≠ "" → r2 ≠ "" →
      computeKey (makeDiagnostic p1) = computeKey (makeDiagnostic p2) →
      mapGet ((mapGet (recordCodeAction document (makeDiagnostic p2) p2
          (recordCodeAction document (makeDiagnostic p1) p1 m)) document.uri).getD [])
        (computeKey (makeDiagnostic p2)) =
        some { label := "Fix this " ++ r2 ++ " problem"
               documentVersion := document.version
               ruleId := r2
               edit := f2 }) ∧
    (∀ (document : TextDocument) (diagnostic : Diagnostic) (p : ESLintProblem)
      (m : JsMap (JsMap AutoFix)),
      p.fix = none ∨ p.ruleId = none →
      recordCodeAction document diagnostic p m = m) := by
  refine ⟨?_, ?_, ?_, ?_⟩
  · intro d1 d2 hr hc
    unfold computeKey
    rw [hr, hc]
  · intro p1 p2 hr hc
    unfold computeKey
    rw [hr]
    simp [makeDiagnostic, hc]
  · intro document m p1 p2 f1 f2 r1 r2 hf1 hf2 hr1 hr2 hn1 hn2 hkey
    unfold recordCodeAction
    rw [hf1, hf2, hr1, hr2]
    simp only [beq_iff_eq, hn1, hn2, if_false]
    rw [mapGet_mapSet_self]
    simp only [Option.getD_some]
    rw [mapGet_mapSet_self]
  · intro document diagnostic p m h
    rcases hfix : p.fix with _ | f <;> rcases hrid : p.ruleId with _ | r <;>
      simp_all [recordCodeAction]

/-- A concrete problem used by witnesses: a warning with a fix. -/
def witnessProblem1 : ESLintProblem :=
  { line := 5, column := 3, endLine := none, endColumn := none, severity := 1,
    ruleId := some "semi", message := "Missing semicolon.",
    fix := some { range := (10, 12), text := ";" } }

/-- A second problem with the same converted positions and rule id but a
different message and fix. -/
def witnessProblem2 : ESLintProblem :=
  { witnessProblem1 with
    message := "Another message.",
    fix := some { range := (11, 13), text := "x" } }

/-- A problem carrying no candidate edit. -/
def witnessProblem3 : ESLintProblem :=
  { witnessProblem1 with fix := none }

/-- A concrete tracked document. -/
def witnessDocument : TextDocument :=
  { uri := "file:///a.js", version := 3, languageId := "javascript" }

theorem claim_C9_registry_keying_witness :
    computeKey (makeDiagnostic witnessProblem1) = computeKey (makeDiagnostic witnessProblem2) ∧
    mapGet ((mapGet (recordCodeAction witnessDocument (makeDiagnostic witnessProblem2) witnessProblem2
        (recordCodeAction witnessDocument (makeDiagnostic witnessProblem1) witnessProblem1 []))
        witnessDocument.uri).getD [])
      (computeKey (makeDiagnostic witnessProblem2)) =
      some { label := "Fix this semi problem", documentVersion := 3, ruleId := "semi",
             edit := { range := (11, 13), text := "x" } } ∧
    recordCodeAction witnessDocument (makeDiagnostic witnessProblem3) witnessProblem3 [] = [] := by
  refine ⟨?_, ?_, ?_⟩
  · exact claim_C9_registry_keying.2.1 witnessProblem1 witnessProblem2 rfl rfl
  · exact claim_C9_registry_keying.2.2.1 witnessDocument [] witnessProblem1 witnessProblem2
      _ _ "semi" "semi" rfl rfl rfl rfl (by decide) (by decide) rfl
  · exact claim_C9_registry_keying.2.2.2 witnessDocument (makeDiagnostic witnessProblem3)
      witnessProblem3 [] (Or.inl rfl)

/-- A concrete stored fix used by witnesses. -/
def witnessAutoFix : AutoFix :=
  { label := "Fix this semi problem", documentVersion := 7, ruleId := "semi",
    edit := { range := (1, 2), text := ";" } }

/-- C2 fails as stated: on the empty snapshot, `getDocumentVersion` reads
`this.edits[this.keys[0]].documentVersion` with `this.keys[0]` undefined and
throws a `TypeError` (modelled by the `none` result) instead of returning a
result. -/
theorem claim_C2_counterexample :
    Fixes.getDocumentVersion ([] : JsMap AutoFix) = none := rfl

/-- C2 amended: `isEmpty`, `getAllSorted`, `getScoped` and `getOverlapFree`
are total and return empty results on the empty snapshot, and
`getDocumentVersion` succeeds on every non-empty snapshot; on the empty
snapshot `getDocumentVersion` faults (undefined dereference) instead of
returning a value. -/
theorem claim_C2_resolver_totality :
    Fixes.isEmpty ([] : JsMap AutoFix) = true ∧
    Fixes.getAllSorted ([] : JsMap AutoFix) = [] ∧
    (∀ diagnostics, Fixes.getScoped ([] : JsMap AutoFix) diagnostics = []) ∧
    Fixes.getOverlapFree ([] : JsMap AutoFix) = [] ∧
    (∀ edits : JsMap AutoFix, edits ≠ [] →
      (Fixes.getDocumentVersion edits).isSome = true) := by
  refine ⟨rfl, ?_, ?_, ?_, ?_⟩
  · simp [Fixes.getAllSorted]
  · intro diagnostics
    simp [Fixes.getScoped, mapGet]
  · simp [Fixes.getOverlapFree, Fixes.getAllSorted]
  · intro edits h
    rcases edits with _ | ⟨⟨k, v⟩, rest⟩
    · exact absurd rfl h
    · simp [Fixes.getDocumentVersion, Fixes.keys, mapKeys, mapGet]

theorem claim_C2_resolver_totality_witness :
    ([("k1", witnessAutoFix)] : JsMap AutoFix) ≠ [] ∧
    (Fixes.getDocumentVersion ([("k1", witnessAutoFix)] : JsMap AutoFix)).isSome = true := by
  refine ⟨by decide, claim_C2_resolver_totality.2.2.2.2 [("k1", witnessAutoFix)] (by decide)⟩

/-- A concrete server state with a Fix Registry entry and a resolved library
for `file:///a.js`. -/
def closeSampleState : ServerState :=
  { codeActions := [("file:///a.js", [("k1", witnessAutoFix)])],
    noConfigReported := [],
    configErrorReported := [],
    document2Library := ["file:///a.js"] }

/-- The tracked document being closed in the C3 counterexample. -/
def closeSampleDocument : TextDocument :=
  { uri := "file:///a.js", version := 7, languageId := "javascript" }

/-- C3 fails as stated: closing a tracked document leaves the Fix Registry
(`codeActions`) entry for its URI in place — what is discarded is the
document-to-library entry. Here the close handler runs (the document is not
ignored), yet the registry still holds the entry afterwards. -/
theorem claim_C3_counterexample :
    ignoreTextDocument closeSampleDocument closeSampleState = false ∧
    (onDidClose closeSampleDocument closeSampleState).1.codeActions =
      closeSampleState.codeActions ∧
    (mapGet closeSampleState.codeActions "file:///a.js").isSome = true ∧
    (onDidClose closeSampleDocument closeSampleState).1.document2Library = [] := by
  refine ⟨rfl, rfl, rfl, rfl⟩

/-- C3 amended: on a document-close event for a non-ignored document,
exactly the document-to-library entry for the URI is discarded and an empty
diagnostics list is published for the URI; the Fix Registry entry and all
other state are retained (and nothing in the handler touches any in-progress
validation). -/
theorem claim_C3_close_frame :
    ∀ (document : TextDocument) (st : ServerState),
    ignoreTextDocument document st = false →
    onDidClose document st =
      ({ st with
         document2Library := st.document2Library.filter (fun u => ¬ (u == document.uri)) },
       [Effect.sendDiagnostics document.uri []]) ∧
    (onDidClose document st).1.codeActions = st.codeActions ∧
    (onDidClose document st).1.noConfigReported = st.noConfigReported ∧
    (onDidClose document st).1.configErrorReported = st.configErrorReported := by
  intro document st h
  unfold onDidClose
  rw [h]
  simp

theorem claim_C3_close_frame_witness :
    ignoreTextDocument closeSampleDocument closeSampleState = false ∧
    (onDidClose closeSampleDocument closeSampleState).1.codeActions =
      closeSampleState.codeActions := by
  exact ⟨rfl, (claim_C3_close_frame closeSampleDocument closeSampleState rfl).2.1⟩

theorem fixComparator_le_iff (a b : AutoFix) :
    fixComparator a b ≤ 0 ↔ SpecFixLe a b := by
  simp only [fixComparator, SpecFixLe]
  split_ifs <;> omega

theorem specFixLe_total (a b : AutoFix) : SpecFixLe a b ∨ SpecFixLe b a := by
  unfold SpecFixLe
  omega

theorem specFixLe_trans (a b c : AutoFix) :
    SpecFixLe a b → SpecFixLe b c → SpecFixLe a c := by
  unfold SpecFixLe
  omega

/-- C4: `getAllSorted` returns a permutation of the snapshot's fixes that is
sorted by the claimed relation `SpecFixLe` — ascending start offset, a
zero end offset first on a start tie, ascending end offset otherwise — and
that relation is total and transitive (a total preorder). -/
theorem claim_C4_sorted_order :
    ∀ edits : JsMap AutoFix,
    (Fixes.getAllSorted edits).Perm (edits.map (fun kv => kv.2)) ∧
    (Fixes.getAllSorted edits).Pairwise SpecFixLe ∧
    (∀ a b : AutoFix, SpecFixLe a b ∨ SpecFixLe b a) ∧
    (∀ a b c : AutoFix, SpecFixLe a b → SpecFixLe b c → SpecFixLe a c) := by
  intro edits
  have htrans : ∀ a b c : AutoFix,
      (fun x y : AutoFix => decide (fixComparator x y ≤ 0)) a b = true →
      (fun x y : AutoFix => decide (fixComparator x y ≤ 0)) b c = true →
      (fun x y : AutoFix => decide (fixComparator x y ≤ 0)) a c = true := by
    intro a b c hab hbc
    simp only [decide_eq_true_eq] at hab hbc ⊢
    exact (fixComparator_le_iff a c).2 (specFixLe_trans a b c
      ((fixComparator_le_iff a b).1 hab) ((fixComparator_le_iff b c).1 hbc))
  have htotal : ∀ a b : AutoFix,
      ((fun x y : AutoFix => decide (fixComparator x y ≤ 0)) a b ||
       (fun x y : AutoFix => decide (fixComparator x y ≤ 0)) b a) = true := by
    intro a b
    simp only [Bool.or_eq_true, decide_eq_true_eq]
    rcases specFixLe_total a b with h | h
    · exact Or.inl ((fixComparator_le_iff a b).2 h)
    · exact Or.inr ((fixComparator_le_iff b a).2 h)
  refine ⟨List.mergeSort_perm _ _, ?_, specFixLe_total, specFixLe_trans⟩
  have h := List.sorted_mergeSort htrans htotal (edits.map (fun kv => kv.2))
  exact h.imp (fun hab => (fixComparator_le_iff _ _).1 (by simpa using hab))

theorem overlapFreeLoop_eq_greedyKeepLoop :
    ∀ (l : List AutoFix) (last : AutoFix),
    overlapFreeLoop last l = greedyKeepLoop last l := by
  intro l
  induction l with
  | nil => intro last; rfl
  | cons c rest ih =>
    intro last
    simp only [overlapFreeLoop, greedyKeepLoop, Fixes.overlaps]
    rcases lt_or_le c.edit.range.1 last.edit.range.2 with h | h
    · rw [if_pos (by simpa using h), if_neg (by omega), ih last]
    · rw [if_neg (by simpa using not_lt.2 h), if_pos h, ih c]

theorem chain_overlapFreeLoop :
    ∀ (l : List AutoFix) (last : AutoFix),
    List.Chain' (fun a b => a.edit.range.2 ≤ b.edit.range.1)
      (last :: overlapFreeLoop last l) := by
  intro l
  induction l with
  | nil => intro last; simp [overlapFreeLoop]
  | cons c rest ih =>
    intro last
    simp only [overlapFreeLoop]
    by_cases h : Fixes.overlaps (some last) c = true
    · rw [if_pos h]
      exact ih last
    · rw [if_neg h]
      have hle : last.edit.range.2 ≤ c.edit.range.1 := by
        simp only [Fixes.overlaps, decide_eq_true_eq] at h
        omega
      rw [List.chain'_cons]
      exact ⟨hle, ih c⟩

/-- C5: `getOverlapFree` is exactly the claimed greedy left-to-right
subsequence of `getAllSorted` (keep the first edit, then keep an edit iff
the most recently kept edit's end offset is at most its start offset), and
consequently adjacent output elements satisfy predecessor end offset ≤
successor start offset. -/
theorem claim_C5_overlap_free :
    ∀ edits : JsMap AutoFix,
    Fixes.getOverlapFree edits = greedyKeep (Fixes.getAllSorted edits) ∧
    List.Chain' (fun a b => a.edit.range.2 ≤ b.edit.range.1)
      (Fixes.getOverlapFree edits) := by
  intro edits
  have hmain : Fixes.getOverlapFree edits = greedyKeep (Fixes.getAllSorted edits) := by
    unfold Fixes.getOverlapFree
    rcases hs : Fixes.getAllSorted edits with _ | ⟨first, rest⟩
    · simp [greedyKeep]
    · rcases rest with _ | ⟨r2, rest2⟩
      · simp [greedyKeep, greedyKeepLoop, overlapFreeLoop]
      · have hlen : ¬ (first :: r2 :: rest2).length ≤ 1 := by
          simp [List.length_cons]
        simp only [hlen, if_false, greedyKeep]
        rw [overlapFreeLoop_eq_greedyKeepLoop]
  refine ⟨hmain, ?_⟩
  unfold Fixes.getOverlapFree
  rcases hs : Fixes.getAllSorted edits with _ | ⟨first, rest⟩
  · simp
  · rcases rest with _ | ⟨r2, rest2⟩
    · simp
    · have hlen : ¬ (first :: r2 :: rest2).length ≤ 1 := by
        simp [List.length_cons]
      simp only [hlen, if_false]
      exact chain_overlapFreeLoop (r2 :: rest2) first

theorem handleFileName_status (ext : Externals) (err : ESLintError)
    (document : TextDocument) (st : ServerState) (filename : String) :
    (handleFileName ext err document st filename).1 = some .warn := by
  unfold handleFileName
  split_ifs <;> rfl

theorem tryHandleNoConfig_status (ext : Externals) (err : ESLintError)
    (document : TextDocument) (st : ServerState) :
    (tryHandleNoConfig ext err document st).1 = noConfigStatus err := by
  unfold tryHandleNoConfig noConfigStatus
  split_ifs <;> rfl

theorem tryHandleConfigError_status (ext : Externals) (err : ESLintError)
    (document : TextDocument) (st : ServerState) :
    (tryHandleConfigError ext err document st).1 = configErrorStatus err := by
  unfold tryHandleConfigError configErrorStatus
  rcases herr : err.message with _ | msg
  · rfl
  · by_cases h0 : (msg == "") = true
    · simp [h0]
    · simp only [h0, if_false, Bool.false_eq_true]
      rcases h1 : reExec configPattern1 msg with _ | caps1
      · rcases h2 : reExec configPattern2 msg with _ | caps2
        · rcases h3 : reExec configPattern3 msg with _ | caps3
          · simp [h1, h2, h3]
          · simp [h1, h2, h3, handleFileName_status]
        · simp [h1, h2, handleFileName_status]
      · simp [h1, handleFileName_status]

theorem noConfigStatus_cases (err : ESLintError) :
    noConfigStatus err = none ∨ noConfigStatus err = some .warn := by
  unfold noConfigStatus
  split_ifs <;> simp

theorem configErrorStatus_cases (err : ESLintError) :
    configErrorStatus err = none ∨ configErrorStatus err = some .warn := by
  rcases herr : err.message with _ | msg
  · simp [configErrorStatus, herr]
  · simp only [configErrorStatus, herr]
    split_ifs <;> simp

theorem runHandlers_single_status (ext : Externals) (err : ESLintError)
    (document : TextDocument) (st : ServerState) :
    (runHandlers singleErrorHandlers ext err document st).1 =
      (classifierChain err).findSome? id := by
  simp only [singleErrorHandlers, runHandlers, classifierChain, List.findSome?]
  rcases hnc : noConfigStatus err with _ | s1 <;>
    rcases hce : configErrorStatus err with _ | s2 <;>
    simp [tryHandleNoConfig_status, tryHandleConfigError_status, hnc, hce,
      showErrorMessageHandler]

theorem runHandlers_many_status (ext : Externals) (err : ESLintError)
    (document : TextDocument) (st : ServerState) :
    (runHandlers manyErrorHandlers ext err document st).1 =
      ([noConfigStatus err, configErrorStatus err]).findSome? id := by
  simp only [manyErrorHandlers, runHandlers, List.findSome?]
  rcases hnc : noConfigStatus err with _ | s1 <;>
    rcases hce : configErrorStatus err with _ | s2 <;>
    simp [tryHandleNoConfig_status, tryHandleConfigError_status, hnc, hce]

/-- C6: on a thrown single-document validation error the classifier chain is
evaluated in the fixed order no-config, config-syntax, generic, stopping at
the first defined status; the generic classifier always yields, so the
chain's result is always `warn` or `error`; and `validateSingle` ends every
branch by publishing a status notification — `ok` on success, the chain's
result (or `error`) on failure. -/
theorem claim_C6_single_error_chain :
    ∀ (ext : Externals) (document : TextDocument) (st : ServerState)
      (run : Except ESLintError ESLintReport) (err : ESLintError),
    ((runHandlers singleErrorHandlers ext err document st).1 =
      (classifierChain err).findSome? id) ∧
    ((classifierChain err).findSome? id = some .warn ∨
      (classifierChain err).findSome? id = some .error) ∧
    ((validateSingle ext document (some ()) run st).2.getLast? =
      some (.statusNote (match run with
        | .ok _ => Status.ok
        | .error e => ((classifierChain e).findSome? id).getD .error))) := by
  intro ext document st run err
  refine ⟨runHandlers_single_status ext err document st, ?_, ?_⟩
  · rcases noConfigStatus_cases err with hnc | hnc <;>
      rcases configErrorStatus_cases err with hce | hce <;>
      simp [classifierChain, hnc, hce, List.findSome?]
  · rcases run with e | report
    · simp only [validateSingle, validate]
      rw [runHandlers_single_status]
      simp
    · simp only [validateSingle, validate]
      rcases report.results with _ | ⟨docReport, restReports⟩ <;> simp

/-- C7: a no-config error classified twice for the same URI with no
intervening watched-file reset sends exactly one no-config request — on the
first classification, carrying the sanitized message and the document URI —
and both classifications return `warn`. -/
theorem claim_C7_no_config_dedup :
    ∀ (ext : Externals) (err1 err2 : ESLintError) (doc1 doc2 : TextDocument)
      (st : ServerState),
    isNoConfigFoundError err1 = true →
    isNoConfigFoundError err2 = true →
    doc2.uri = doc1.uri →
    st.noConfigReported.contains doc1.uri = false →
    (tryHandleNoConfig ext err1 doc1 st).1 = some .warn ∧
    (tryHandleNoConfig ext err1 doc1 st).2.2 =
      [.noConfigRequest (getMessage ext err1 doc1) doc1.uri] ∧
    (tryHandleNoConfig ext err2 doc2 (tryHandleNoConfig ext err1 doc1 st).2.1).1 =
      some .warn ∧
    (tryHandleNoConfig ext err2 doc2 (tryHandleNoConfig ext err1 doc1 st).2.1).2.2 =
      [] := by
  intro ext err1 err2 doc1 doc2 st h1 h2 huri hfresh
  have hfirst : tryHandleNoConfig ext err1 doc1 st =
      (some .warn,
       { st with noConfigReported := st.noConfigReported ++ [doc1.uri] },
       [.noConfigRequest (getMessage ext err1 doc1) doc1.uri]) := by
    unfold tryHandleNoConfig
    rw [h1, hfresh]
    simp
  have hmem : ({ st with noConfigReported := st.noConfigReported ++ [doc1.uri] }
      : ServerState).noConfigReported.contains doc2.uri = true := by
    simp [huri]
  refine ⟨by rw [hfirst], by rw [hfirst], ?_, ?_⟩ <;>
    rw [hfirst] <;> unfold tryHandleNoConfig <;> rw [h2, hmem] <;> simp

/-- Concrete externals used by witnesses and counterexamples. -/
def witnessExternals : Externals :=
  { uriToFilePath := fun _ => "/workspace/a.js", fileToUri := fun s => s, openDocs := [] }

/-- A concrete no-config error (matched through its message text). -/
def witnessNoConfigError : ESLintError :=
  { message := some "No ESLint configuration found.", messageTemplate := none }

/-- A concrete state that has not yet reported a no-config error. -/
def witnessEmptyState : ServerState :=
  { codeActions := [], noConfigReported := [], configErrorReported := [],
    document2Library := ["file:///a.js"] }

theorem claim_C7_no_config_dedup_witness :
    (tryHandleNoConfig witnessExternals witnessNoConfigError witnessDocument
      witnessEmptyState).1 = some .warn ∧
    (tryHandleNoConfig witnessExternals witnessNoConfigError witnessDocument
      witnessEmptyState).2.2 =
      [.noConfigRequest (getMessage witnessExternals witnessNoConfigError witnessDocument)
        witnessDocument.uri] ∧
    (tryHandleNoConfig witnessExternals witnessNoConfigError witnessDocument
      (tryHandleNoConfig witnessExternals witnessNoConfigError witnessDocument
        witnessEmptyState).2.1).1 = some .warn ∧
    (tryHandleNoConfig witnessExternals witnessNoConfigError witnessDocument
      (tryHandleNoConfig witnessExternals witnessNoConfigError witnessDocument
        witnessEmptyState).2.1).2.2 = [] :=
  claim_C7_no_config_dedup witnessExternals witnessNoConfigError witnessNoConfigError
    witnessDocument witnessDocument witnessEmptyState rfl rfl rfl rfl

theorem getLast?_cons_or {α : Type} (x : α) (l : List α) (z : Option α) :
    (x :: l).getLast?.or z = l.getLast?.or (some x) := by
  rcases l with _ | ⟨y, t⟩
  · simp
  · rw [List.getLast?_cons_cons]
    rcases h : (y :: t).getLast? with _ | w
    · rw [List.getLast?_eq_none_iff] at h
      exact absurd h (by simp)
    · simp

theorem validateManyStep_failure_status (ext : Externals) (st0 : ServerState)
    (acc : ManyAcc) (a : ManyAttempt) (e : ESLintError)
    (hig : ignoreTextDocument a.document st0 = false)
    (hlib : a.library = some ())
    (hrun : a.run = Except.error e) :
    (validateManyStep ext st0 acc a).status = some (batchFailureStatus e) := by
  unfold validateManyStep
  rw [hig, hlib, hrun]
  simp only [validate, Bool.false_eq_true, if_false]
  have h := runHandlers_many_status ext e a.document
    { acc.st with codeActions := mapDelete acc.st.codeActions a.document.uri }
  unfold batchFailureStatus
  rcases hc : ([noConfigStatus e, configErrorStatus e]).findSome? id with _ | s
  · rw [hc] at h
    simp [h]
  · rw [hc] at h
    simp [h]

theorem validateMany_status_invariant (ext : Externals) (st0 : ServerState) :
    ∀ (attempts : List ManyAttempt) (acc : ManyAcc),
    (attempts.foldl (validateManyStep ext st0) acc).status =
      (((batchFailures st0 attempts).map batchFailureStatus).getLast?).or acc.status := by
  intro attempts
  induction attempts with
  | nil => intro acc; simp [batchFailures]
  | cons a rest ih =>
    intro acc
    rw [List.foldl_cons, ih]
    by_cases hig : ignoreTextDocument a.document st0 = true
    · have hstep : validateManyStep ext st0 acc a = acc := by
        unfold validateManyStep
        rw [hig]
        simp
      rw [hstep]
      have hbf : batchFailures st0 (a :: rest) = batchFailures st0 rest := by
        simp [batchFailures, hig]
      rw [hbf]
    · rw [Bool.not_eq_true] at hig
      rcases hlib : a.library with _ | u
      · have hstep : validateManyStep ext st0 acc a = acc := by
          unfold validateManyStep
          rw [hig, hlib]
          simp
        rw [hstep]
        have hbf : batchFailures st0 (a :: rest) = batchFailures st0 rest := by
          simp [batchFailures, hig, hlib]
        rw [hbf]
      · rcases hrun : a.run with e | report
        · have hstep : (validateManyStep ext st0 acc a).status =
              some (batchFailureStatus e) :=
            validateManyStep_failure_status ext st0 acc a e hig (by rw [hlib]) hrun
          rw [hstep]
          have hbf : batchFailures st0 (a :: rest) = e :: batchFailures st0 rest := by
            simp [batchFailures, hig, hlib, hrun]
          rw [hbf, List.map_cons, getLast?_cons_or]
        · have hstep : (validateManyStep ext st0 acc a).status = acc.status := by
            unfold validateManyStep
            rw [hig, hlib, hrun]
            simp [validate]
          rw [hstep]
          have hbf : batchFailures st0 (a :: rest) = batchFailures st0 rest := by
            simp [batchFailures, hig, hlib, hrun]
          rw [hbf]

/-- C1 amended: the status published at the end of a batch validation is the
classification of the LAST failing attempt in settlement order — `warn` if
its error was handled by the no-config or config-syntax classifier, `error`
otherwise — and `ok` when no processed attempt failed. It is therefore
settlement-order dependent, not the worst status observed. -/
theorem claim_C1_batch_status :
    ∀ (ext : Externals) (attempts : List ManyAttempt) (st0 : ServerState),
    (validateMany ext attempts st0).2.getLast? =
      some (.statusNote
        (((batchFailures st0 attempts).map batchFailureStatus).getLast?.getD .ok)) := by
  intro ext attempts st0
  unfold validateMany
  have hst := validateMany_status_invariant ext st0 attempts
    { st := st0, status := none, tracker := [], effs := [] }
  simp only [List.getLast?_append, List.getLast?_concat]
  rw [hst]
  rcases hbl : (List.map batchFailureStatus (batchFailures st0 attempts)).getLast?
    with _ | s <;> rfl

/-- A tracked document for batch counterexamples. -/
def batchDocumentA : TextDocument :=
  { uri := "file:///a.js", version := 1, languageId := "javascript" }

/-- A second tracked document for batch counterexamples. -/
def batchDocumentB : TextDocument :=
  { uri := "file:///b.js", version := 1, languageId := "javascript" }

/-- A batch state tracking both documents. -/
def batchState : ServerState :=
  { codeActions := [], noConfigReported := [], configErrorReported := [],
    document2Library := ["file:///a.js", "file:///b.js"] }

/-- An error no classifier handles (its `message` is not a string, so the
config-syntax classifier bails out and the no-config classifier does not
match). -/
def unhandledError : ESLintError := { message := none, messageTemplate := none }

/-- Two failing attempts: first (in settlement order) an unhandled error,
then a no-config error. -/
def batchAttempts : List ManyAttempt :=
  [{ document := batchDocumentA, library := some (), run := Except.error unhandledError },
   { document := batchDocumentB, library := some (), run := Except.error witnessNoConfigError }]

/-- C1 fails as stated: with an unhandled error settling before a no-config
error, the published batch status is `warn`, although the worst observed
outcome is `error`; settling the same attempts in the opposite order
publishes `error`, so the result is also order-dependent. -/
theorem claim_C1_counterexample :
    (validateMany witnessExternals batchAttempts batchState).2.getLast? =
      some (.statusNote .warn) ∧
    claimedBatchStatus batchState batchAttempts = .error ∧
    (validateMany witnessExternals batchAttempts.reverse batchState).2.getLast? =
      some (.statusNote .error) ∧
    Status.warn ≠ Status.error := by
  refine ⟨?_, ?_, ?_, by decide⟩ <;> rfl

/-- The greedy overlap-free selection over a sorted fix list, regardless of
rule — the `all` accumulator of the code-action handler. -/
def allSelection (sorted : List AutoFix) : List AutoFix :=
  sorted.foldl (fun acc e =>
    if ¬ Fixes.overlaps acc.getLast? e then acc ++ [e] else acc) []

theorem foldl_sortedStep_eq (ruleIdOpt : Option String) :
    ∀ (l : List AutoFix) (dv : Int) (s a : List AutoFix),
    l.foldl (codeActionSortedStep ruleIdOpt) (dv, s, a) =
      (l.foldl (fun acc e => if acc == -1 then e.documentVersion else acc) dv,
       l.foldl (fun acc e =>
         if (some e.ruleId == ruleIdOpt) && ¬ Fixes.overlaps acc.getLast? e
         then acc ++ [e] else acc) s,
       l.foldl (fun acc e =>
         if ¬ Fixes.overlaps acc.getLast? e then acc ++ [e] else acc) a) := by
  intro l
  induction l with
  | nil => intros; rfl
  | cons e rest ih =>
    intro dv s a
    simp only [List.foldl_cons, codeActionSortedStep]
    rw [ih]
    rfl

theorem sameRuleSelection_foldl (r : String) (sorted : List AutoFix) :
    sorted.foldl (fun acc e =>
      if (some e.ruleId == some r) && ¬ Fixes.overlaps acc.getLast? e
      then acc ++ [e] else acc) [] = sameRuleSelection r sorted := rfl

theorem onCodeAction_characterization
    (positionAt : Int → Position) (codeActions : JsMap (JsMap AutoFix))
    (uri : String) (ctx : List Diagnostic) (edits : JsMap AutoFix)
    (last : AutoFix)
    (hget : mapGet codeActions uri = some edits)
    (hemp : ¬ Fixes.isEmpty edits = true)
    (hlast : (Fixes.getScoped edits ctx).getLast? = some last) :
    onCodeAction positionAt codeActions uri ctx =
      (Fixes.getScoped edits ctx).map (fun editInfo =>
        ({ title := editInfo.label
           command := "eslint.applySingleFix"
           uri := uri
           documentVersion := editInfo.documentVersion
           edits := [createTextEdit positionAt editInfo] } : Command)) ++
      (if 1 < (sameRuleSelection last.ruleId (Fixes.getAllSorted edits)).length then
          [({ title := "Fix all " ++ last.ruleId ++ " problems"
              command := "eslint.applySameFixes"
              uri := uri
              documentVersion := (Fixes.getAllSorted edits).foldl
                (fun acc e => if acc == -1 then e.documentVersion else acc)
                last.documentVersion
              edits := (sameRuleSelection last.ruleId (Fixes.getAllSorted edits)).map
                (createTextEdit positionAt) } : Command)]
        else []) ++
      (if 1 < (allSelection (Fixes.getAllSorted edits)).length then
          [({ title := "Fix all auto-fixable problems"
              command := "eslint.applyAllFixes"
              uri := uri
              documentVersion := (Fixes.getAllSorted edits).foldl
                (fun acc e => if acc == -1 then e.documentVersion else acc)
                last.documentVersion
              edits := (allSelection (Fixes.getAllSorted edits)).map
                (createTextEdit positionAt) } : Command)]
        else []) := by
  have hSne : Fixes.getScoped edits ctx ≠ [] := by
    intro h
    rw [h] at hlast
    simp at hlast
  simp only [onCodeAction, hget, hlast]
  rw [if_neg hemp]
  have hlen : (Fixes.getScoped edits ctx).map (fun editInfo =>
      ({ title := editInfo.label
         command := "eslint.applySingleFix"
         uri := uri
         documentVersion := editInfo.documentVersion
         edits := [createTextEdit positionAt editInfo] } : Command)) ≠ [] := by
    simpa using hSne
  rw [if_pos (by
    rcases h : (Fixes.getScoped edits ctx) with _ | ⟨x, xs⟩
    · exact absurd h hSne
    · simp [h])]
  rw [foldl_sortedStep_eq]
  simp only [sameRuleSelection_foldl]
  rfl

/-- C10: in the code-action response, the target rule id of the aggregate
"Fix all (rule) problems" (apply-same-fixes) command is the rule id of the
last fix of the scoped selection over the context diagnostics, and that
command is emitted exactly when the scoped selection is non-empty and the
greedy same-rule non-overlapping selection for that rule holds at least two
fixes. -/
theorem claim_C10_same_fix_command :
    ∀ (positionAt : Int → Position) (codeActions : JsMap (JsMap AutoFix))
      (uri : String) (ctx : List Diagnostic) (edits : JsMap AutoFix),
    mapGet codeActions uri = some edits →
    ((∃ c ∈ onCodeAction positionAt codeActions uri ctx,
        c.command = "eslint.applySameFixes") ↔
      (Fixes.getScoped edits ctx ≠ [] ∧
       1 < (sameRuleSelection (designatedRule (Fixes.getScoped edits ctx))
             (Fixes.getAllSorted edits)).length)) ∧
    (∀ c ∈ onCodeAction positionAt codeActions uri ctx,
      c.command = "eslint.applySameFixes" →
      c.title = "Fix all " ++ designatedRule (Fixes.getScoped edits ctx) ++ " problems" ∧
      c.edits = (sameRuleSelection (designatedRule (Fixes.getScoped edits ctx))
        (Fixes.getAllSorted edits)).map (createTextEdit positionAt)) := by
  intro positionAt codeActions uri ctx edits hget
  have hne1 : ¬ (("eslint.applySingleFix" : String) = "eslint.applySameFixes") := by decide
  have hne2 : ¬ (("eslint.applyAllFixes" : String) = "eslint.applySameFixes") := by decide
  by_cases hemp : Fixes.isEmpty edits = true
  · have hnil : edits = [] := by
      rcases edits with _ | ⟨kv, r⟩
      · rfl
      · simp [Fixes.isEmpty, Fixes.keys, mapKeys] at hemp
    have hcmds : onCodeAction positionAt codeActions uri ctx = [] := by
      simp [onCodeAction, hget, hemp]
    have hS : Fixes.getScoped edits ctx = [] := by
      rw [hnil]
      simp [Fixes.getScoped, mapGet]
    rw [hcmds]
    constructor
    · constructor
      · rintro ⟨c, hc, _⟩
        exact absurd hc (List.not_mem_nil c)
      · rintro ⟨hne, _⟩
        exact absurd hS hne
    · intro c hc
      exact absurd hc (List.not_mem_nil c)
  · rcases hlastc : (Fixes.getScoped edits ctx).getLast? with _ | last
    · have hS : Fixes.getScoped edits ctx = [] := List.getLast?_eq_none_iff.mp hlastc
      have hcmds : onCodeAction positionAt codeActions uri ctx = [] := by
        simp only [onCodeAction, hget]
        rw [if_neg hemp]
        simp [hS]
      rw [hcmds]
      constructor
      · constructor
        · rintro ⟨c, hc, _⟩
          exact absurd hc (List.not_mem_nil c)
        · rintro ⟨hne, _⟩
          exact absurd hS hne
      · intro c hc
        exact absurd hc (List.not_mem_nil c)
    · have hS : Fixes.getScoped edits ctx ≠ [] := by
        intro h
        rw [h] at hlastc
        simp at hlastc
      have hdr : designatedRule (Fixes.getScoped edits ctx) = last.ruleId := by
        simp [designatedRule, hlastc]
      rw [onCodeAction_characterization positionAt codeActions uri ctx edits last hget hemp
        hlastc, hdr]
      constructor
      · constructor
        · rintro ⟨c, hc, hcmd⟩
          by_cases hlen : 1 < (sameRuleSelection last.ruleId (Fixes.getAllSorted edits)).length
          · exact ⟨hS, hlen⟩
          · exfalso
            rw [if_neg hlen] at hc
            rcases List.mem_append.mp hc with hc1 | hc2
            · rcases List.mem_append.mp hc1 with hm | h0
              · rcases List.mem_map.mp hm with ⟨x, hx, rfl⟩
                exact absurd hcmd hne1
              · exact absurd h0 (List.not_mem_nil c)
            · by_cases hlen2 : 1 < (allSelection (Fixes.getAllSorted edits)).length
              · rw [if_pos hlen2] at hc2
                rcases List.mem_singleton.mp hc2 with rfl
                exact absurd hcmd hne2
              · rw [if_neg hlen2] at hc2
                exact absurd hc2 (List.not_mem_nil c)
        · rintro ⟨_, hlen⟩
          rw [if_pos hlen]
          exact ⟨_, List.mem_append_left _ (List.mem_append_right _
            (List.mem_singleton_self _)), rfl⟩
      · intro c hc hcmd
        by_cases hlen : 1 < (sameRuleSelection last.ruleId (Fixes.getAllSorted edits)).length
        · rw [if_pos hlen] at hc
          rcases List.mem_append.mp hc with hc1 | hc2
          · rcases List.mem_append.mp hc1 with hm | hsame
            · rcases List.mem_map.mp hm with ⟨x, hx, rfl⟩
              exact absurd hcmd hne1
            · rcases List.mem_singleton.mp hsame with rfl
              exact ⟨rfl, rfl⟩
          · by_cases hlen2 : 1 < (allSelection (Fixes.getAllSorted edits)).length
            · rw [if_pos hlen2] at hc2
              rcases List.mem_singleton.mp hc2 with rfl
              exact absurd hcmd hne2
            · rw [if_neg hlen2] at hc2
              exact absurd hc2 (List.not_mem_nil c)
        · rw [if_neg hlen] at hc
          rcases List.mem_append.mp hc with hc1 | hc2
          · rcases List.mem_append.mp hc1 with hm | h0
            · rcases List.mem_map.mp hm with ⟨x, hx, rfl⟩
              exact absurd hcmd hne1
            · exact absurd h0 (List.not_mem_nil c)
          · by_cases hlen2 : 1 < (allSelection (Fixes.getAllSorted edits)).length
            · rw [if_pos hlen2] at hc2
              rcases List.mem_singleton.mp hc2 with rfl
              exact absurd hcmd hne2
            · rw [if_neg hlen2] at hc2
              exact absurd hc2 (List.not_mem_nil c)

/-- First stored fix for the C10 witness (rule "semi", offsets 0-1). -/
def c10Fix1 : AutoFix :=
  { label := "Fix this semi problem", documentVersion := 4, ruleId := "semi",
    edit := { range := (0, 1), text := ";" } }

/-- Second stored fix for the C10 witness (rule "semi", offsets 5-6). -/
def c10Fix2 : AutoFix :=
  { label := "Fix this semi problem", documentVersion := 4, ruleId := "semi",
    edit := { range := (5, 6), text := ";" } }

/-- The C10 witness snapshot, keyed by the diagnostics' computed keys. -/
def c10Edits : JsMap AutoFix :=
  [("[0,0,0,1]-semi", c10Fix1), ("[1,0,1,1]-semi", c10Fix2)]

/-- The C10 witness registry. -/
def c10CodeActions : JsMap (JsMap AutoFix) := [("file:///a.js", c10Edits)]

/-- A context diagnostic whose key matches the first stored fix. -/
def c10Diagnostic : Diagnostic :=
  { message := "m", severity := 2, source := "eslint",
    range := { start := { line := 0, character := 0 }
               endPos := { line := 0, character := 1 } },
    code := some "semi" }

/-- A concrete offset-to-position conversion for the C10 witness. -/
def c10PositionAt : Int → Position := fun offset => { line := 0, character := offset }

theorem claim_C10_same_fix_command_witness :
    mapGet c10CodeActions "file:///a.js" = some c10Edits ∧
    (((∃ c ∈ onCodeAction c10PositionAt c10CodeActions "file:///a.js" [c10Diagnostic],
        c.command = "eslint.applySameFixes") ↔
      (Fixes.getScoped c10Edits [c10Diagnostic] ≠ [] ∧
       1 < (sameRuleSelection (designatedRule (Fixes.getScoped c10Edits [c10Diagnostic]))
             (Fixes.getAllSorted c10Edits)).length)) ∧
    (∀ c ∈ onCodeAction c10PositionAt c10CodeActions "file:///a.js" [c10Diagnostic],
      c.command = "eslint.applySameFixes" →
      c.title = "Fix all " ++ designatedRule (Fixes.getScoped c10Edits [c10Diagnostic]) ++
        " problems" ∧
      c.edits = (sameRuleSelection (designatedRule (Fixes.getScoped c10Edits [c10Diagnostic]))
        (Fixes.getAllSorted c10Edits)).map (createTextEdit c10PositionAt))) :=
  ⟨rfl, claim_C10_same_fix_command c10PositionAt c10CodeActions "file:///a.js"
    [c10Diagnostic] c10Edits rfl⟩

theorem claim_C4_sorted_order_witness :
    (Fixes.getAllSorted c10Edits).Perm (c10Edits.map (fun kv => kv.2)) ∧
    (Fixes.getAllSorted c10Edits).Pairwise SpecFixLe ∧
    (SpecFixLe c10Fix1 c10Fix2 ∨ SpecFixLe c10Fix2 c10Fix1) ∧
    SpecFixLe c10Fix1 c10Fix2 :=
  ⟨(claim_C4_sorted_order c10Edits).1,
   (claim_C4_sorted_order c10Edits).2.1,
   (claim_C4_sorted_order c10Edits).2.2.1 c10Fix1 c10Fix2,
   (claim_C4_sorted_order c10Edits).2.2.2 c10Fix1 c10Fix1 c10Fix2 (by decide) (by decide)⟩
